import Mathlib

/-!
Verification of the block-tree terms dictionary reader
(`BlockTreeTermsReader` and friends, package `index`).

The Go source is embedded shallowly:

* machine integers (`int32`, `int64`) become `Int`; the one place where the
  source performs an unsigned 64-bit shift (`uint64(n) >> 2`) is modelled
  with an explicit `% 2 ^ 64`;
* `store.IndexInput` is modelled as a record giving the file length, the
  8-byte value readable at each offset, and the current cursor position;
* fallible operations return `Except String` mirroring the `(value, error)`
  pairs of the source;
* the per-field directory section of the `.tim` file is modelled as the
  structured values the reader obtains from its `ReadVInt` / `ReadVLong` /
  `ReadBytes` calls.
-/

/-! ## Unsigned lexicographic byte order -/

/-- Strict unsigned lexicographic order on byte sequences, the order in
which the dictionary stores terms. -/
def bytesLt : List Nat → List Nat → Bool
  | _, [] => false
  | [], _ :: _ => true
  | a :: as, b :: bs => a < b || (a == b && bytesLt as bs)

/-- A term list is strictly ascending when every adjacent pair is related
by `bytesLt`. -/
def sortedB : List (List Nat) → Bool
  | [] => true
  | [_] => true
  | a :: b :: rest => bytesLt a b && sortedB (b :: rest)

theorem bytesLt_irrefl (a : List Nat) : bytesLt a a = false := by
  induction a with
  | nil => rfl
  | cons x xs ih => simp [bytesLt, ih]

theorem bytesLt_trans :
    ∀ {a b c : List Nat}, bytesLt a b = true → bytesLt b c = true →
      bytesLt a c = true := by
  intro a
  induction a with
  | nil =>
    intro b c hab hbc
    cases b with
    | nil => simp [bytesLt] at hab
    | cons y ys =>
      cases c with
      | nil => simp [bytesLt] at hbc
      | cons z zs => simp [bytesLt]
  | cons x xs ih =>
    intro b c hab hbc
    cases b with
    | nil => simp [bytesLt] at hab
    | cons y ys =>
      cases c with
      | nil => simp [bytesLt] at hbc
      | cons z zs =>
        simp [bytesLt] at hab hbc ⊢
        rcases hab with hxy | ⟨hxy, htail⟩
        · rcases hbc with hyz | ⟨hyz, _⟩
          · exact Or.inl (Nat.lt_trans hxy hyz)
          · exact Or.inl (hyz ▸ hxy)
        · rcases hbc with hyz | ⟨hyz, htail2⟩
          · exact Or.inl (hxy ▸ hyz)
          · exact Or.inr ⟨hxy.trans hyz, ih htail htail2⟩

theorem sortedB_tail {a : List Nat} {l : List (List Nat)}
    (h : sortedB (a :: l) = true) : sortedB l = true := by
  cases l with
  | nil => rfl
  | cons b rest => simp [sortedB] at h; exact h.2

theorem sortedB_head_lt {a : List Nat} {l : List (List Nat)}
    (h : sortedB (a :: l) = true) :
    ∀ b ∈ l, bytesLt a b = true := by
  induction l generalizing a with
  | nil => intro b hb; cases hb
  | cons x xs ih =>
    intro b hb
    simp [sortedB] at h
    rcases List.mem_cons.mp hb with hb | hb
    · exact hb ▸ h.1
    · exact bytesLt_trans h.1 (ih h.2 b hb)

/-! ## Format constants (source `const` block) -/

def BTT_OUTPUT_FLAGS_NUM_BITS : Nat := 2
def BTT_VERSION_START : Int := 0
def BTT_VERSION_APPEND_ONLY : Int := 1
def BTT_VERSION_CURRENT : Int := BTT_VERSION_APPEND_ONLY
def BTT_INDEX_VERSION_START : Int := 0
def BTT_INDEX_VERSION_APPEND_ONLY : Int := 1
def BTT_INDEX_VERSION_CURRENT : Int := BTT_INDEX_VERSION_APPEND_ONLY

/-! ## IndexInput model

`store.IndexInput` reduced to what `readHeader` / `seekDir` use: a length,
the 8-byte big-endian value stored at each offset, and a cursor. -/

structure IndexInputM where
  length : Int
  longAt : Int → Int
  pos : Int

def IndexInputM.seek (inp : IndexInputM) (p : Int) : IndexInputM :=
  { inp with pos := p }

/-- `ReadLong`: yields the 8-byte value at the cursor and advances it. -/
def IndexInputM.readLong (inp : IndexInputM) : Int × IndexInputM :=
  (inp.longAt inp.pos, { inp with pos := inp.pos + 8 })

/-- `BlockTreeTermsReader.readHeader` after a successful `CheckHeader`
(which leaves the cursor just past the header and yields `version`):
for a pre-append-only version the directory offset is read inline;
otherwise `dirOffset` keeps its zero value.  Returns
`(version, dirOffset, input afterwards)`. -/
def readHeader (version : Int) (inp : IndexInputM) :
    Int × Int × IndexInputM :=
  if version < BTT_VERSION_APPEND_ONLY then
    let r := inp.readLong
    (version, r.1, r.2)
  else
    (version, 0, inp)

/-- `BlockTreeTermsReader.seekDir`: for the append-only format the
directory offset is re-read from the last 8 bytes of the file, then the
cursor is placed at the directory. -/
def seekDir (version : Int) (inp : IndexInputM) (dirOffset : Int) :
    IndexInputM :=
  if version ≥ BTT_INDEX_VERSION_APPEND_ONLY then
    let inp2 := inp.seek (inp.length - 8)
    let r := inp2.readLong
    r.2.seek r.1
  else
    inp.seek dirOffset

/-! ## Root code decode (`newFieldReader`) -/

/-- Modelled from the spec: the variable-length integer primitive of the
"Packed/varint primitives" collaborator (spec section 2 and 6; the `store`
package is outside this subsystem).  Seven payload bits per byte, least
significant group first, high bit set on every byte but the last. -/
def readVLong : List Nat → Option Nat
  | [] => none
  | b :: rest =>
    if b < 128 then some b
    else (readVLong rest).map (fun n => (b % 128) + 128 * n)

/-- `FieldReader`: the per-field directory entry.  The `owner` back pointer
and the loaded FST are omitted; everything the claims touch is kept. -/
structure FieldReader where
  numTerms : Int
  fieldName : String
  sumTotalTermFreq : Int
  sumDocFreq : Int
  docCount : Int
  indexStartFP : Int
  rootBlockFP : Nat
  rootCode : List Nat

/-- `newFieldReader`: stores the aggregates verbatim and decodes the root
code by reading one VLong from the root-code bytes and shifting the
unsigned 64-bit value right by `BTT_OUTPUT_FLAGS_NUM_BITS`
(`int64(uint64(n) >> 2)` in the source).  `none` models the `ReadVLong`
error path. -/
def newFieldReader (name : String) (numTerms : Int) (rootCode : List Nat)
    (sumTotalTermFreq sumDocFreq docCount indexStartFP : Int) :
    Option FieldReader :=
  (readVLong rootCode).map (fun n =>
    { numTerms := numTerms
      fieldName := name
      sumTotalTermFreq := sumTotalTermFreq
      sumDocFreq := sumDocFreq
      docCount := docCount
      indexStartFP := indexStartFP
      rootBlockFP := (n % 2 ^ 64) / 2 ^ BTT_OUTPUT_FLAGS_NUM_BITS
      rootCode := rootCode })

/-! ## Directory parsing (`newBlockTreeTermsReader`, lines 102-234)

The reader's `ReadVInt` / `ReadVLong` / `ReadBytes` calls on the directory
section are modelled by the structured values they produce. -/

/-- The slice of `FieldInfo` the reader consults: the field name and
whether the indexing mode is `INDEX_OPT_DOCS_ONLY` (no term frequencies
recorded). -/
structure FieldInfo where
  name : String
  docsOnly : Bool

/-- The raw values read from one per-field directory record. -/
structure RawFieldEntry where
  fieldNum : Nat
  numTerms : Int
  rootCode : List Nat
  sumTotalTermFreqRead : Int
  sumDocFreq : Int
  docCount : Int
  indexStartFP : Int

/-- The three count-invariant checks performed for each field (source
lines 188-202), in source order, each failing with a corruption error
carrying the offending values. -/
def checkFieldStats (docCount maxDoc sumDocFreq sumTotalTermFreq : Int) :
    Except String Unit :=
  if docCount < 0 ∨ docCount > maxDoc then
    Except.error ("invalid docCount: " ++ toString docCount ++
      " maxDoc: " ++ toString maxDoc)
  else if sumDocFreq < docCount then
    Except.error ("invalid sumDocFreq: " ++ toString sumDocFreq ++
      " docCount: " ++ toString docCount)
  else if sumTotalTermFreq ≠ -1 ∧ sumTotalTermFreq < sumDocFreq then
    Except.error ("invalid sumTotalTermFreq: " ++ toString sumTotalTermFreq ++
      " sumDocFreq: " ++ toString sumDocFreq)
  else
    Except.ok ()

/-- One iteration of the per-field loop: resolve the field info, apply the
docs-only sentinel, run the three count checks, reject duplicate names,
and construct the `FieldReader`, appending it to the fields map. -/
def loadOneField (indexDivisor : Int) (maxDoc : Int)
    (infoOf : Nat → FieldInfo) (fields : List (String × FieldReader))
    (e : RawFieldEntry) : Except String (List (String × FieldReader)) :=
  let fi := infoOf e.fieldNum
  let stf : Int := if fi.docsOnly then -1 else e.sumTotalTermFreqRead
  match checkFieldStats e.docCount maxDoc e.sumDocFreq stf with
  | Except.error msg => Except.error msg
  | Except.ok _ =>
    let isfp : Int := if indexDivisor ≠ -1 then e.indexStartFP else 0
    if (fields.find? (fun p => p.1 == fi.name)).isSome then
      Except.error ("duplicate field: " ++ fi.name)
    else
      match newFieldReader fi.name e.numTerms e.rootCode stf
          e.sumDocFreq e.docCount isfp with
      | none => Except.error "malformed rootCode"
      | some fr => Except.ok (fields ++ [(fi.name, fr)])

/-- The per-field loop.  Mirrors the Go control flow: on error the reader
built so far (`fields` populated for the already-processed records) is
returned together with the error. -/
def loadFields (indexDivisor : Int) (maxDoc : Int)
    (infoOf : Nat → FieldInfo) :
    List RawFieldEntry → List (String × FieldReader) →
      List (String × FieldReader) × Option String
  | [], fields => (fields, none)
  | e :: rest, fields =>
    match loadOneField indexDivisor maxDoc infoOf fields e with
    | Except.error msg => (fields, some msg)
    | Except.ok fields2 => loadFields indexDivisor maxDoc infoOf rest fields2

/-- Everything `newBlockTreeTermsReader` reads from disk, in structured
form: the primary and index header versions (results of the two
`CheckHeader` calls), the segment's document count (`info.docCount`), the
directory field count, the per-field records, and the `FieldInfos`
lookup table. -/
structure OpenInputModel where
  version : Int
  indexVersion : Int
  maxDoc : Int
  numFields : Int
  entries : List RawFieldEntry
  infoOf : Nat → FieldInfo

/-- The fields map of a (possibly partially constructed)
`BlockTreeTermsReader`. -/
structure BlockTreeTermsReader where
  fields : List (String × FieldReader)

/-- `newBlockTreeTermsReader`, directory phase: the index-version check
(lines 108-122), the `numFields ≥ 0` check (lines 133-140) and the
per-field loop (lines 142-223).  Go returns the partially built `fp`
together with the error, which the pair mirrors. -/
def newBlockTreeTermsReader (indexDivisor : Int) (m : OpenInputModel) :
    BlockTreeTermsReader × Option String :=
  if indexDivisor ≠ -1 ∧ m.indexVersion ≠ m.version then
    ({ fields := [] }, some ("mixmatched version files: " ++
      toString m.version ++ "," ++ toString m.indexVersion))
  else if m.numFields < 0 then
    ({ fields := [] }, some ("invalid numFields: " ++ toString m.numFields))
  else
    let r := loadFields indexDivisor m.maxDoc m.infoOf m.entries []
    ({ fields := r.1 }, r.2)

/-- The zero value of the Go `FieldReader` struct, which
`r.fields[field]` yields when `field` is absent from the map. -/
def FieldReader.zeroValue : FieldReader :=
  { numTerms := 0
    fieldName := ""
    sumTotalTermFreq := 0
    sumDocFreq := 0
    docCount := 0
    indexStartFP := 0
    rootBlockFP := 0
    rootCode := [] }

/-- `BlockTreeTermsReader.Terms` (lines 281-284):
`ans := r.fields[field]; return &ans`.  A Go map read with a missing key
yields the zero value, and the address of the local is always non-nil, so
the method unconditionally returns a usable handle; there is no absent
branch in the source. -/
def BlockTreeTermsReader.Terms (r : BlockTreeTermsReader)
    (field : String) : FieldReader :=
  match r.fields.find? (fun p => p.1 == field) with
  | some p => p.2
  | none => FieldReader.zeroValue

/-! ## Handle lifecycle of `newBlockTreeTermsReader` (lines 75-234)

The file-handle effects of the open sequence made explicit.  Each fallible
step of the source is given a success flag; the deferred cleanup
(lines 89-100) runs `util.CloseWhileSuppressingError(indexIn, fp)` on any
failure after the primary file was opened, and `fp.Close` closes the
primary input. -/

structure OpenOutcomes where
  openPrimaryOk : Bool
  readHeaderOk : Bool
  openIndexOk : Bool
  readIndexHeaderOk : Bool
  versionsMatch : Bool
  readDirectoryOk : Bool
  closeIndexOk : Bool

/-- Which of the two file handles are currently open. -/
structure HandleState where
  primaryOpen : Bool
  indexOpen : Bool
deriving DecidableEq

/-- `util.CloseWhileSuppressingError(indexIn, fp)`: closes the index input
and, through `fp.Close` (lines 286-293), the primary input. -/
def closeWhileSuppressingError (st : HandleState) : HandleState :=
  { st with primaryOpen := false, indexOpen := false }

/-- The open sequence with its handle effects, driven by the per-step
outcomes.  Returns the error, if any, and the final handle state.  A
failing `OpenInput` opens no handle; every later failure runs the
deferred cleanup. -/
def openLifecycle (indexDivisor : Int) (oc : OpenOutcomes) :
    Option String × HandleState :=
  if !oc.openPrimaryOk then
    (some "cannot open primary input", { primaryOpen := false, indexOpen := false })
  else
    let st : HandleState := { primaryOpen := true, indexOpen := false }
    if !oc.readHeaderOk then
      (some "readHeader failed", closeWhileSuppressingError st)
    else if indexDivisor ≠ -1 then
      if !oc.openIndexOk then
        (some "cannot open index input", closeWhileSuppressingError st)
      else
        let st2 : HandleState := { primaryOpen := true, indexOpen := true }
        if !oc.readIndexHeaderOk then
          (some "readIndexHeader failed", closeWhileSuppressingError st2)
        else if !oc.versionsMatch then
          (some "mixmatched version files", closeWhileSuppressingError st2)
        else if !oc.readDirectoryOk then
          (some "directory read failed", closeWhileSuppressingError st2)
        else if !oc.closeIndexOk then
          (some "index close failed",
            closeWhileSuppressingError { primaryOpen := true, indexOpen := false })
        else
          (none, { primaryOpen := true, indexOpen := false })
    else if !oc.readDirectoryOk then
      (some "directory read failed", closeWhileSuppressingError st)
    else
      (none, st)

/-! ## Block frames (`segmentTermsEnumFrame`, `newFrame`) -/

/-- The slice of `BlockTermState` the cited code touches (the struct lives
in the postings package; the dictionary treats it as opaque apart from
the `totalTermFreq` reset in `newFrame`). -/
structure BlockTermState where
  docFreq : Int
  totalTermFreq : Int

/-- `segmentTermsEnumFrame`, restricted to the fields `newFrame`
initializes.  The `owner` chain is abstracted into the
`postingsReader.NewTermState` callback passed to `newFrame`. -/
structure SegmentTermsEnumFrame where
  ord : Int
  suffixBytes : List Nat
  statBytes : List Nat
  floorData : List Nat
  state : BlockTermState

/-- `newFrame` (lines 505-516): allocates the scratch buffers, obtains a
fresh term state from the postings reader and overwrites its
`totalTermFreq` with the `-1` sentinel. -/
def newFrame (newTermState : Unit → BlockTermState) (ord : Int) :
    SegmentTermsEnumFrame :=
  let f : SegmentTermsEnumFrame :=
    { ord := ord
      suffixBytes := List.replicate 128 0
      statBytes := List.replicate 64 0
      floorData := List.replicate 32 0
      state := newTermState () }
  { f with state := { f.state with totalTermFreq := -1 } }

/-! ## Term iterator (`SegmentTermsEnum`)

`SeekExact`, `SeekCeil` and `Next` are `panic("not implemented yet")`
stubs in the source; only `Term` has a body.  The operations below are
therefore modelled from the spec (sections 4.4 and 8), over the
abstraction of a field's dictionary as the byte-ascending list of its
written terms. -/

/-- The iterator state: the field's written terms (the `FieldReader`
abstraction), the current term bytes, the cursor position, and the
`eof` / `termExists` flags of the source struct. -/
structure SegmentTermsEnum where
  fieldTerms : List (List Nat)
  term : List Nat
  pos : Nat
  eof : Bool
  termExists : Bool

/-- `newSegmentTermsEnum` (lines 381-389): a fresh iterator positioned
before the first term. -/
def newSegmentTermsEnum (fieldTerms : List (List Nat)) : SegmentTermsEnum :=
  { fieldTerms := fieldTerms
    term := []
    pos := 0
    eof := false
    termExists := false }

/-- `SegmentTermsEnum.Term` (lines 407-412): panics (modelled as `none`)
when `eof` is set, otherwise returns the current term bytes. -/
def SegmentTermsEnum.Term (e : SegmentTermsEnum) : Option (List Nat) :=
  if e.eof then none else some e.term

/-- Modelled from the spec: the insertion-point search of `SeekCeil`
(section 4.4) — the index of the smallest stored term that is not below
the target in unsigned lexicographic order. -/
def seekCeilIdx (terms : List (List Nat)) (target : List Nat) : Nat :=
  match terms with
  | [] => 0
  | tm :: rest =>
    if bytesLt tm target then seekCeilIdx rest target + 1
    else 0

/-- Modelled from the spec: `SegmentTermsEnum.SeekExact` (section 4.4,
stubbed in the source) — locate the insertion point of `target`; if the
stored term there equals `target` the cursor lands on it (`termExists`
set, `term` holding the matched on-disk bytes) and `true` is returned;
otherwise `false` is returned and the cursor is not on a term. -/
def SegmentTermsEnum.SeekExact (e : SegmentTermsEnum) (target : List Nat) :
    Bool × SegmentTermsEnum :=
  let i := seekCeilIdx e.fieldTerms target
  match e.fieldTerms[i]? with
  | some tm =>
    if tm == target then
      (true, { e with term := tm, pos := i + 1, termExists := true, eof := false })
    else
      (false, { e with termExists := false })
  | none => (false, { e with termExists := false })

/-- Modelled from the spec: `SegmentTermsEnum.Next` (section 4.4, stubbed
in the source) — produce the next term in ascending order, or signal
end-of-sequence by setting `eof`. -/
def SegmentTermsEnum.Next (e : SegmentTermsEnum) :
    Option (List Nat) × SegmentTermsEnum :=
  match e.fieldTerms[e.pos]? with
  | some tm =>
    (some tm, { e with pos := e.pos + 1, term := tm, termExists := true })
  | none => (none, { e with eof := true })

/-- The list of terms produced by calling `Next` repeatedly, up to `fuel`
calls, stopping at the first end-of-sequence signal. -/
def collectNext : Nat → SegmentTermsEnum → List (List Nat)
  | 0, _ => []
  | fuel + 1, e =>
    match e.Next with
    | (some tm, e2) => tm :: collectNext fuel e2
    | (none, _) => []

/-! ## Helper lemmas -/

theorem getElem?_some_drop {α : Type} :
    ∀ (l : List α) (p : Nat) (x : α),
      l[p]? = some x → l.drop p = x :: l.drop (p + 1) := by
  intro l
  induction l with
  | nil => intro p x h; simp at h
  | cons a as ih =>
    intro p x h
    cases p with
    | zero => simp at h; subst h; simp
    | succ p =>
      simp at h
      simpa [List.drop] using ih p x h

theorem getElem?_none_drop {α : Type} :
    ∀ (l : List α) (p : Nat), l[p]? = none → l.drop p = [] := by
  intro l
  induction l with
  | nil => intro p _; simp
  | cons a as ih =>
    intro p h
    cases p with
    | zero => simp at h
    | succ p =>
      simp at h
      simpa [List.drop] using ih p (by simpa using h)

theorem collectNext_eq_drop :
    ∀ (fuel : Nat) (e : SegmentTermsEnum),
      e.fieldTerms.length - e.pos < fuel →
      collectNext fuel e = e.fieldTerms.drop e.pos := by
  intro fuel
  induction fuel with
  | zero => intro e h; exact absurd h (Nat.not_lt_zero _)
  | succ fuel ih =>
    intro e h
    cases hg : e.fieldTerms[e.pos]? with
    | some tm =>
      have hlen : e.pos < e.fieldTerms.length := by
        rcases List.getElem?_eq_some.mp hg with ⟨h1, _⟩
        exact h1
      have hrec := ih { e with pos := e.pos + 1, term := tm, termExists := true }
        (by simp; omega)
      simp only [collectNext, SegmentTermsEnum.Next, hg]
      simp only [hrec]
      exact (getElem?_some_drop _ _ _ hg).symm
    | none =>
      simp only [collectNext, SegmentTermsEnum.Next, hg]
      exact (getElem?_none_drop _ _ hg).symm

theorem ceil_mem (t : List Nat) :
    ∀ (l : List (List Nat)), sortedB l = true →
      ((∃ tm, l[seekCeilIdx l t]? = some tm ∧ tm = t) ↔ t ∈ l) := by
  intro l
  induction l with
  | nil => intro _; simp [seekCeilIdx]
  | cons a rest ih =>
    intro hs
    by_cases ha : bytesLt a t = true
    · have hat : a ≠ t := by
        intro hEq
        rw [hEq] at ha
        rw [bytesLt_irrefl] at ha
        exact Bool.false_ne_true ha
      have hrest := ih (sortedB_tail hs)
      constructor
      · intro hEx
        rcases hEx with ⟨tm, hg, htm⟩
        simp [seekCeilIdx, ha] at hg
        exact List.mem_cons_of_mem a (hrest.mp ⟨tm, hg, htm⟩)
      · intro hmem
        rcases List.mem_cons.mp hmem with hmem | hmem
        · exact absurd hmem.symm hat
        · rcases hrest.mpr hmem with ⟨tm, hg, htm⟩
          refine ⟨tm, ?_, htm⟩
          simp [seekCeilIdx, ha]
          exact hg
    · have ha2 : bytesLt a t = false := Bool.eq_false_iff.mpr ha
      constructor
      · intro hEx
        rcases hEx with ⟨tm, hg, htm⟩
        simp [seekCeilIdx, ha2] at hg
        subst htm
        rw [hg]
        exact List.mem_cons_self tm rest
      · intro hmem
        rcases List.mem_cons.mp hmem with hmem | hmem
        · exact ⟨a, by simp [seekCeilIdx, ha2], hmem.symm⟩
        · have hlt := sortedB_head_lt hs t hmem
          rw [ha2] at hlt
          exact absurd hlt Bool.false_ne_true

theorem newFieldReader_numTerms {name : String} {nt : Int} {rc : List Nat}
    {stf sdf dc isfp : Int} {fr : FieldReader}
    (h : newFieldReader name nt rc stf sdf dc isfp = some fr) :
    fr.numTerms = nt := by
  unfold newFieldReader at h
  cases hv : readVLong rc with
  | none => rw [hv] at h; simp at h
  | some n =>
    rw [hv] at h
    simp at h
    rw [← h]

theorem loadOneField_ok_shape {id maxDoc : Int} {infoOf : Nat → FieldInfo}
    {fields fields2 : List (String × FieldReader)} {e : RawFieldEntry}
    (h : loadOneField id maxDoc infoOf fields e = Except.ok fields2) :
    ∃ fr, fields2 = fields ++ [((infoOf e.fieldNum).name, fr)] ∧
      fr.numTerms = e.numTerms := by
  simp only [loadOneField] at h
  cases hc : checkFieldStats e.docCount maxDoc e.sumDocFreq
      (if (infoOf e.fieldNum).docsOnly then -1 else e.sumTotalTermFreqRead) with
  | error msg => rw [hc] at h; simp at h
  | ok u =>
    simp only [hc] at h
    by_cases hdup :
        (List.find? (fun p => p.1 == (infoOf e.fieldNum).name) fields).isSome = true
    · rw [if_pos hdup] at h
      exact absurd h (by simp)
    · rw [if_neg hdup] at h
      cases hn : newFieldReader (infoOf e.fieldNum).name e.numTerms e.rootCode
          (if (infoOf e.fieldNum).docsOnly then -1 else e.sumTotalTermFreqRead)
          e.sumDocFreq e.docCount
          (if id ≠ -1 then e.indexStartFP else 0) with
      | none =>
        rw [hn] at h
        exact absurd h (by simp)
      | some fr =>
        rw [hn] at h
        simp at h
        exact ⟨fr, h.symm, newFieldReader_numTerms hn⟩

theorem loadFields_numTerms_pos (id maxDoc : Int) (infoOf : Nat → FieldInfo) :
    ∀ (entries : List RawFieldEntry) (acc : List (String × FieldReader)),
      (∀ e ∈ entries, 0 < e.numTerms) →
      (∀ p ∈ acc, 0 < p.2.numTerms) →
      ∀ p ∈ (loadFields id maxDoc infoOf entries acc).1, 0 < p.2.numTerms := by
  intro entries
  induction entries with
  | nil => intro acc _ hacc; simpa [loadFields] using hacc
  | cons e rest ih =>
    intro acc hent hacc
    cases hl : loadOneField id maxDoc infoOf acc e with
    | error msg =>
      simpa [loadFields, hl] using hacc
    | ok acc2 =>
      have hacc2 : ∀ p ∈ acc2, 0 < p.2.numTerms := by
        rcases loadOneField_ok_shape hl with ⟨fr, hshape, hnt⟩
        intro p hp
        rw [hshape] at hp
        rcases List.mem_append.mp hp with hp | hp
        · exact hacc p hp
        · have : p = ((infoOf e.fieldNum).name, fr) := by simpa using hp
          rw [this]
          exact hnt ▸ hent e (List.mem_cons_self e rest)
      have hrest : ∀ e2 ∈ rest, 0 < e2.numTerms := by
        intro e2 he2
        exact hent e2 (List.mem_cons_of_mem e he2)
      simpa [loadFields, hl] using ih acc2 hrest hacc2

/-! ## Claim theorems -/

/-- C10: every Block Frame created by `newFrame` starts with a freshly
obtained postings term state whose `totalTermFreq` is initialized to the
`-1` sentinel, whatever state the postings reader's `NewTermState`
produced. -/
theorem newFrame_totalTermFreq_sentinel
    (newTermState : Unit → BlockTermState) (ord : Int) :
    (newFrame newTermState ord).state.totalTermFreq = -1 := rfl

/-- C6: `Terms` on a field name with no dictionary entry does not return a
not-found indicator: the Go map read yields the zero-valued `FieldReader`
and the method returns a (non-nil) handle over it, whose `numTerms` is 0
in violation of the documented `numTerms > 0` invariant. -/
theorem terms_absent_field_returns_zero_value_handle :
    BlockTreeTermsReader.Terms { fields := [] } "body" = FieldReader.zeroValue
    ∧ (BlockTreeTermsReader.Terms { fields := [] } "body").numTerms = 0 :=
  ⟨rfl, rfl⟩

/-- C5: directory-offset resolution is a two-path protocol.  For a header
version before the append-only version the offset is the 8-byte value
read inline right after the header, and `seekDir` leaves the cursor
there; for the append-only version and later, `seekDir` seeks to
(file length − 8), reads the 8-byte offset stored there, and seeks to
it. -/
theorem dir_offset_two_path (version : Int) (inp : IndexInputM) :
    (version < BTT_VERSION_APPEND_ONLY →
      (readHeader version inp).2.1 = inp.longAt inp.pos ∧
      (seekDir version (readHeader version inp).2.2
        (readHeader version inp).2.1).pos = inp.longAt inp.pos)
    ∧ (version ≥ BTT_VERSION_APPEND_ONLY →
      (seekDir version (readHeader version inp).2.2
        (readHeader version inp).2.1).pos
        = inp.longAt (inp.length - 8)) := by
  constructor
  · intro h
    have h2 : ¬ version ≥ BTT_INDEX_VERSION_APPEND_ONLY := by
      simp only [BTT_INDEX_VERSION_APPEND_ONLY]
      simp only [BTT_VERSION_APPEND_ONLY] at h
      omega
    simp [readHeader, seekDir, IndexInputM.readLong, IndexInputM.seek, h, h2]
  · intro h
    have h2 : ¬ version < BTT_VERSION_APPEND_ONLY := by
      simp only [BTT_VERSION_APPEND_ONLY] at h ⊢
      omega
    have h3 : version ≥ BTT_INDEX_VERSION_APPEND_ONLY := by
      simp only [BTT_INDEX_VERSION_APPEND_ONLY]
      simpa [BTT_VERSION_APPEND_ONLY] using h
    simp [readHeader, seekDir, IndexInputM.readLong, IndexInputM.seek, h2, h3]

/-- Witness for C5: both paths evaluated on a concrete 100-byte file whose
trailing 8 bytes hold 50 and whose post-header bytes hold 7. -/
theorem dir_offset_two_path_witness :
    (seekDir 0
      (readHeader 0 ⟨100, fun p => if p = 92 then 50 else 7, 10⟩).2.2
      (readHeader 0 ⟨100, fun p => if p = 92 then 50 else 7, 10⟩).2.1).pos = 7
    ∧ (seekDir 1
      (readHeader 1 ⟨100, fun p => if p = 92 then 50 else 7, 10⟩).2.2
      (readHeader 1 ⟨100, fun p => if p = 92 then 50 else 7, 10⟩).2.1).pos = 50 :=
  ⟨((dir_offset_two_path 0 ⟨100, fun p => if p = 92 then 50 else 7, 10⟩).1
      (by decide)).2,
    (dir_offset_two_path 1 ⟨100, fun p => if p = 92 then 50 else 7, 10⟩).2
      (by decide)⟩

/-- C8: the Field Directory Entry decodes the root code by reading one
variable-length integer; its low 2 bits are flag bits and the remaining
bits, right-shifted by `BTT_OUTPUT_FLAGS_NUM_BITS` = 2 (as an unsigned
64-bit value), are the root block's file pointer, so the decoded value
splits as flags + 4 * rootBlockFP. -/
theorem root_code_decode (name : String) (numTerms : Int)
    (rootCode : List Nat) (stf sdf dc isfp : Int) (n : Nat)
    (h : readVLong rootCode = some n) :
    ∃ fr, newFieldReader name numTerms rootCode stf sdf dc isfp = some fr ∧
      fr.rootBlockFP = (n % 2 ^ 64) / 2 ^ BTT_OUTPUT_FLAGS_NUM_BITS ∧
      (n % 2 ^ 64) % 2 ^ BTT_OUTPUT_FLAGS_NUM_BITS
        + 2 ^ BTT_OUTPUT_FLAGS_NUM_BITS * fr.rootBlockFP = n % 2 ^ 64 := by
  simp only [newFieldReader, h, Option.map_some']
  exact ⟨_, rfl, rfl, Nat.mod_add_div (n % 2 ^ 64) (2 ^ BTT_OUTPUT_FLAGS_NUM_BITS)⟩

/-- Witness for C8: the root code bytes `[134, 3]` decode to the VLong
390 = 0b110000110, whose flag bits are 2 and whose file pointer is 97. -/
theorem root_code_decode_witness :
    readVLong [134, 3] = some 390
    ∧ ∃ fr, newFieldReader "body" 1 [134, 3] (-1) 0 0 0 = some fr ∧
        fr.rootBlockFP = (390 % 2 ^ 64) / 2 ^ BTT_OUTPUT_FLAGS_NUM_BITS ∧
        (390 % 2 ^ 64) % 2 ^ BTT_OUTPUT_FLAGS_NUM_BITS
          + 2 ^ BTT_OUTPUT_FLAGS_NUM_BITS * fr.rootBlockFP = 390 % 2 ^ 64 :=
  ⟨by decide, root_code_decode "body" 1 [134, 3] (-1) 0 0 0 390 (by decide)⟩

/-- C3: for every field read from the directory the three count invariants
are checked — `checkFieldStats` succeeds exactly when
`docCount ∈ [0, segmentMaxDoc]`, `sumDocFreq ≥ docCount`, and
`sumTotalTermFreq` is `-1` or `≥ sumDocFreq` — and any violation makes
the per-field open step abort with the corruption error. -/
theorem count_invariants_checked (id maxDoc : Int) (infoOf : Nat → FieldInfo)
    (fields : List (String × FieldReader)) (e : RawFieldEntry) (stf : Int)
    (hstf : stf
      = if (infoOf e.fieldNum).docsOnly then -1 else e.sumTotalTermFreqRead) :
    (checkFieldStats e.docCount maxDoc e.sumDocFreq stf = Except.ok ()
      ↔ (0 ≤ e.docCount ∧ e.docCount ≤ maxDoc ∧ e.docCount ≤ e.sumDocFreq ∧
          (stf = -1 ∨ e.sumDocFreq ≤ stf)))
    ∧ (checkFieldStats e.docCount maxDoc e.sumDocFreq stf ≠ Except.ok () →
      ∃ msg, loadOneField id maxDoc infoOf fields e = Except.error msg) := by
  constructor
  · simp only [checkFieldStats]
    split_ifs with h1 h2 h3 <;> simp <;> omega
  · intro hne
    cases hc : checkFieldStats e.docCount maxDoc e.sumDocFreq stf with
    | ok u => exact absurd hc hne
    | error msg =>
      rw [hstf] at hc
      refine ⟨msg, ?_⟩
      simp only [loadOneField, hc]

/-- Witness for C3: a field record with `docCount = -1` fails the check
and aborts the per-field open step with an error. -/
theorem count_invariants_checked_witness :
    ((-1 : Int) = if (FieldInfo.mk "body" true).docsOnly then -1 else 0)
    ∧ checkFieldStats (-1) 5 0 (-1) ≠ Except.ok ()
    ∧ ∃ msg, loadOneField (-1) 5 (fun _ => ⟨"body", true⟩) []
        ⟨0, 1, [0], 0, 0, -1, 0⟩ = Except.error msg :=
  ⟨by decide,
    by simp [checkFieldStats],
    (count_invariants_checked (-1) 5 (fun _ => ⟨"body", true⟩) []
        ⟨0, 1, [0], 0, 0, -1, 0⟩ (-1) (by decide)).2
      (by simp [checkFieldStats])⟩

/-- C4: when index loading is requested (`indexDivisor != -1`) and the
index file's header version differs from the primary file's version, the
open fails with the corruption error and the returned reader's field map
is still empty — no Field Directory Entry has been constructed. -/
theorem index_version_mismatch_fails_early (id : Int) (m : OpenInputModel)
    (hreq : id ≠ -1) (hver : m.indexVersion ≠ m.version) :
    (newBlockTreeTermsReader id m).2.isSome = true
    ∧ (newBlockTreeTermsReader id m).1.fields = [] := by
  simp [newBlockTreeTermsReader, hreq, hver]

/-- Witness for C4: opening with index loading enabled against a primary
version 1 and an index version 0 errors with an empty field map. -/
theorem index_version_mismatch_fails_early_witness :
    (newBlockTreeTermsReader 1
      ⟨1, 0, 1, 1, [⟨0, 1, [0], 0, 0, 0, 0⟩], fun _ => ⟨"body", true⟩⟩).2.isSome
      = true
    ∧ (newBlockTreeTermsReader 1
      ⟨1, 0, 1, 1, [⟨0, 1, [0], 0, 0, 0, 0⟩], fun _ => ⟨"body", true⟩⟩).1.fields
      = [] :=
  index_version_mismatch_fails_early 1
    ⟨1, 0, 1, 1, [⟨0, 1, [0], 0, 0, 0, 0⟩], fun _ => ⟨"body", true⟩⟩
    (by decide) (by decide)

/-- C7: every failure during the open sequence leaves both file handles
closed: whichever step fails, the deferred
`CloseWhileSuppressingError(indexIn, fp)` (or the step's own failure to
open) ensures no handle stays open when the error propagates. -/
theorem open_failure_closes_handles (id : Int) (oc : OpenOutcomes)
    (h : (openLifecycle id oc).1.isSome = true) :
    (openLifecycle id oc).2 = { primaryOpen := false, indexOpen := false } := by
  rcases oc with ⟨a, b, c, d, e, f, g⟩
  by_cases hid : id = -1 <;>
    cases a <;> cases b <;> cases c <;> cases d <;> cases e <;> cases f <;>
      cases g <;>
    simp_all [openLifecycle, closeWhileSuppressingError]

/-- Witness for C7: a version mismatch during an index-loading open leaves
both handles closed. -/
theorem open_failure_closes_handles_witness :
    (openLifecycle 1 ⟨true, true, true, true, false, true, true⟩).1.isSome = true
    ∧ (openLifecycle 1 ⟨true, true, true, true, false, true, true⟩).2
      = { primaryOpen := false, indexOpen := false } :=
  ⟨by decide,
    open_failure_closes_handles 1 ⟨true, true, true, true, false, true, true⟩
      (by decide)⟩

/-- C9 counterexample: the reader performs no check on the term count it
reads (the `numTerms > 0` assertion of the Java original is only a comment
in the Go source), so a directory record with `numTerms = 0` is accepted:
the open succeeds and constructs a Field Directory Entry whose `numTerms`
is 0. -/
theorem zero_terms_entry_constructed :
    (newBlockTreeTermsReader (-1)
      ⟨1, 1, 1, 1, [⟨0, 0, [0], 0, 0, 0, 0⟩], fun _ => ⟨"body", true⟩⟩).2 = none
    ∧ ((newBlockTreeTermsReader (-1)
      ⟨1, 1, 1, 1, [⟨0, 0, [0], 0, 0, 0, 0⟩], fun _ => ⟨"body", true⟩⟩).1.fields.any
        (fun p => p.2.numTerms == 0)) = true := by
  constructor <;> rfl

/-- C9 (amended): the reader itself never introduces a zero term count —
whenever every record persisted in the directory has `numTerms > 0` (the
writer-side invariant), every Field Directory Entry the open constructs
has `numTerms > 0`. -/
theorem fields_numTerms_positive_of_input (id : Int) (m : OpenInputModel)
    (h : ∀ e ∈ m.entries, 0 < e.numTerms) :
    ∀ p ∈ (newBlockTreeTermsReader id m).1.fields, 0 < p.2.numTerms := by
  unfold newBlockTreeTermsReader
  split_ifs with h1 h2
  · intro p hp; simp at hp
  · intro p hp; simp at hp
  · exact loadFields_numTerms_pos id m.maxDoc m.infoOf m.entries [] h
      (by intro p hp; simp at hp)

/-- Witness for C9 (amended): a directory whose single record has
`numTerms = 3` produces only entries with positive term counts. -/
theorem fields_numTerms_positive_of_input_witness :
    (∀ e ∈ [(⟨0, 3, [0], 0, 0, 0, 0⟩ : RawFieldEntry)], 0 < e.numTerms)
    ∧ ∀ p ∈ (newBlockTreeTermsReader (-1)
        ⟨1, 1, 1, 1, [⟨0, 3, [0], 0, 0, 0, 0⟩],
          fun _ => ⟨"body", true⟩⟩).1.fields, 0 < p.2.numTerms :=
  ⟨by decide,
    fields_numTerms_positive_of_input (-1)
      ⟨1, 1, 1, 1, [⟨0, 3, [0], 0, 0, 0, 0⟩], fun _ => ⟨"body", true⟩⟩
      (by decide)⟩

/-- C1: over a valid dictionary (terms strictly ascending in unsigned
lexicographic byte order), `SeekExact(t)` on a fresh Term Iterator
returns true iff `t` is among the terms written for the field, and on
success a subsequent `Term()` returns exactly `t`. -/
theorem seekExact_iff_member (terms : List (List Nat)) (t : List Nat)
    (hs : sortedB terms = true) :
    (((newSegmentTermsEnum terms).SeekExact t).1 = true ↔ t ∈ terms)
    ∧ (((newSegmentTermsEnum terms).SeekExact t).1 = true →
      ((newSegmentTermsEnum terms).SeekExact t).2.Term = some t) := by
  have hmem := ceil_mem t terms hs
  simp only [SegmentTermsEnum.SeekExact, newSegmentTermsEnum]
  cases hg : terms[seekCeilIdx terms t]? with
  | none =>
    constructor
    · constructor
      · intro hfound
        simp at hfound
      · intro ht
        rcases hmem.mpr ht with ⟨tm, hg2, htm⟩
        rw [hg] at hg2
        exact absurd hg2 (by simp)
    · intro hfound
      simp at hfound
  | some tm =>
    by_cases htm : tm == t
    · have htm2 : tm = t := by simpa using htm
      constructor
      · constructor
        · intro _
          exact hmem.mp ⟨tm, hg, htm2⟩
        · intro _
          simp [htm]
      · intro _
        simp [htm, SegmentTermsEnum.Term, htm2]
    · constructor
      · constructor
        · intro hfound
          simp [htm] at hfound
        · intro ht
          rcases hmem.mpr ht with ⟨tm2, hg2, htm2⟩
          rw [hg] at hg2
          simp at hg2
          exact absurd (hg2 ▸ htm2) (by simpa using htm)
      · intro hfound
        simp [htm] at hfound

/-- Witness for C1: the dictionary `{"car","cat","dog"}` (as byte lists)
is strictly ascending; seeking `"cat"` succeeds and `Term()` returns it. -/
theorem seekExact_iff_member_witness :
    sortedB [[99, 97, 114], [99, 97, 116], [100, 111, 103]] = true
    ∧ (((newSegmentTermsEnum
        [[99, 97, 114], [99, 97, 116], [100, 111, 103]]).SeekExact
        [99, 97, 116]).1 = true ↔
        [99, 97, 116] ∈ [[99, 97, 114], [99, 97, 116], [100, 111, 103]])
    ∧ (((newSegmentTermsEnum
        [[99, 97, 114], [99, 97, 116], [100, 111, 103]]).SeekExact
        [99, 97, 116]).1 = true →
      ((newSegmentTermsEnum
        [[99, 97, 114], [99, 97, 116], [100, 111, 103]]).SeekExact
        [99, 97, 116]).2.Term = some [99, 97, 116]) :=
  ⟨by decide,
    seekExact_iff_member [[99, 97, 114], [99, 97, 116], [100, 111, 103]]
      [99, 97, 116] (by decide)⟩

/-- C2: over a valid dictionary whose stored `numTerms` equals the number
of terms written, a fresh Term Iterator driven by repeated `Next()` calls
yields exactly the written term list: strictly ascending in unsigned
lexicographic byte order and with exactly `numTerms` elements before
end-of-sequence is signaled (the one spare `Next()` call of fuel hits the
end-of-sequence signal). -/
theorem next_yields_all_terms_ascending (terms : List (List Nat))
    (numTerms : Int) (hs : sortedB terms = true)
    (hn : numTerms = (terms.length : Int)) :
    collectNext (terms.length + 1) (newSegmentTermsEnum terms) = terms
    ∧ sortedB (collectNext (terms.length + 1) (newSegmentTermsEnum terms))
      = true
    ∧ ((collectNext (terms.length + 1) (newSegmentTermsEnum terms)).length : Int)
      = numTerms := by
  have hall : collectNext (terms.length + 1) (newSegmentTermsEnum terms)
      = terms := by
    have hd := collectNext_eq_drop (terms.length + 1) (newSegmentTermsEnum terms)
      (by simp [newSegmentTermsEnum])
    simpa [newSegmentTermsEnum] using hd
  refine ⟨hall, ?_, ?_⟩
  · rw [hall]; exact hs
  · rw [hall, hn]

/-- Witness for C2: iterating the three-term dictionary with `numTerms = 3`
yields exactly the stored ascending list. -/
theorem next_yields_all_terms_ascending_witness :
    sortedB [[99, 97, 114], [99, 97, 116], [100, 111, 103]] = true
    ∧ (3 : Int) = (([[99, 97, 114], [99, 97, 116],
        [100, 111, 103]] : List (List Nat)).length : Int)
    ∧ collectNext 4 (newSegmentTermsEnum
        [[99, 97, 114], [99, 97, 116], [100, 111, 103]])
      = [[99, 97, 114], [99, 97, 116], [100, 111, 103]] :=
  ⟨by decide, by decide,
    (next_yields_all_terms_ascending
      [[99, 97, 114], [99, 97, 116], [100, 111, 103]] 3
      (by decide) (by decide)).1⟩
